import Mathlib

/-!
Shallow embedding of the Automated-Data-Collector core
(src/core/data_processor.py, src/core/data_collection.py,
src/utils/data_extraction.py, src/ui/main_window.py) and proofs of the
claims about it.

Conventions:
* Python strings are modelled as Lean `String` (lists of characters);
  the ASCII fragment of Python's `str.strip`, `str.split`, `str.lower`
  is modelled explicitly below.
* Python dicts holding one collected record are modelled by the
  structure `PyDict`: `none` means the key is absent, `some v` that it
  is present.  Values of the six main fields are strings wherever the
  code applies string methods to them; the six auxiliary fields may
  hold non-string values, modelled by `JVal.other`.
-/

namespace ADC

/-- ASCII whitespace as recognised by Python's `str.strip` / `str.split`. -/
def isWS (c : Char) : Bool :=
  c = ' ' || c = '\t' || c = '\n' || c = '\r' || c = '\x0b' || c = '\x0c'

/-- Python `str.strip()` (ASCII fragment): drop leading and trailing
whitespace. -/
def pyStripL (l : List Char) : List Char :=
  ((l.dropWhile isWS).reverse.dropWhile isWS).reverse

def pyStrip (s : String) : String := ⟨pyStripL s.data⟩

/-- Python `str.split()` with no argument: split on whitespace runs,
dropping empty pieces.  `acc` is the current token, reversed. -/
def wordsAux : List Char → List Char → List (List Char)
  | [], acc => if acc.isEmpty then [] else [acc.reverse]
  | c :: cs, acc =>
    if isWS c then
      if acc.isEmpty then wordsAux cs [] else acc.reverse :: wordsAux cs []
    else wordsAux cs (c :: acc)

def pyWordsL (l : List Char) : List (List Char) := wordsAux l []

def pyWords (s : String) : List String := (pyWordsL s.data).map (⟨·⟩)

/-- `' '.join(ts)`: concatenate with a single space between the pieces. -/
def joinSpaceL : List (List Char) → List Char
  | [] => []
  | [t] => t
  | t :: ts => t ++ ' ' :: joinSpaceL ts

/-- `' '.join(s.split())`: whitespace-collapsed form of a string. -/
def pyCollapseL (l : List Char) : List Char := joinSpaceL (pyWordsL l)

/-- Python `str.lower()` (ASCII fragment, the data handled by the tool):
maps the basic latin letters `A`..`Z` to `a`..`z`, exactly `Char.toLower`. -/
def pyLowerL (l : List Char) : List Char := l.map Char.toLower

def pyLower (s : String) : String := ⟨pyLowerL s.data⟩

/-- Python `s.startswith(pre)`. -/
def pyStartsWith (s pre : String) : Bool := List.isPrefixOf pre.data s.data

/-- `any(char.isdigit() for char in s)` (ASCII fragment). -/
def hasDigitL (l : List Char) : Bool := l.any Char.isDigit

def hasDigit (s : String) : Bool := hasDigitL s.data

/-! ### Facts about the character operations -/

theorem char_toNat_ofNat_valid {n : Nat} (h : n.isValidChar) : (Char.ofNat n).toNat = n := by
  simp [Char.ofNat, dif_pos h, Char.ofNatAux, Char.toNat, UInt32.toNat]

theorem toLower_toNat (c : Char) :
    (Char.toLower c).toNat = if 65 ≤ c.toNat ∧ c.toNat ≤ 90 then c.toNat + 32 else c.toNat := by
  unfold Char.toLower
  split
  · next h =>
    rw [if_pos (by omega)]
    exact char_toNat_ofNat_valid (Or.inl (by omega))
  · next h => rw [if_neg (by omega)]

theorem toLower_eq_self (c : Char) (h : ¬ (65 ≤ c.toNat ∧ c.toNat ≤ 90)) :
    Char.toLower c = c := by
  unfold Char.toLower
  rw [if_neg (by omega)]

theorem toLower_idem (c : Char) : Char.toLower (Char.toLower c) = Char.toLower c := by
  by_cases h : 65 ≤ c.toNat ∧ c.toNat ≤ 90
  · apply toLower_eq_self
    rw [toLower_toNat, if_pos h]
    omega
  · rw [toLower_eq_self c h]
    exact toLower_eq_self c h

theorem isWS_false_of_between (c : Char) (h1 : 65 ≤ c.toNat) (h2 : c.toNat ≤ 122) :
    isWS c = false := by
  simp only [isWS, Bool.or_eq_false_iff, decide_eq_false_iff_not]
  refine ⟨⟨⟨⟨⟨?_, ?_⟩, ?_⟩, ?_⟩, ?_⟩, ?_⟩ <;>
    (intro hc; subst hc; revert h1; decide)

theorem isWS_toLower (c : Char) : isWS (Char.toLower c) = isWS c := by
  by_cases h : 65 ≤ c.toNat ∧ c.toNat ≤ 90
  · rw [isWS_false_of_between c (by omega) (by omega)]
    apply isWS_false_of_between
    · rw [toLower_toNat, if_pos h]; omega
    · rw [toLower_toNat, if_pos h]; omega
  · rw [toLower_eq_self c h]

/-! ### Facts about `pyStrip` -/

theorem dropWhile_eq_self_of_head {α : Type} (p : α → Bool) (l : List α)
    (h : ∀ c, l.head? = some c → p c = false) : l.dropWhile p = l := by
  cases l with
  | nil => rfl
  | cons c cs =>
    rw [List.dropWhile_cons_of_neg]
    simp [h c rfl]

theorem pyStripL_eq_self {l : List Char}
    (h1 : ∀ c, l.head? = some c → isWS c = false)
    (h2 : ∀ c, l.getLast? = some c → isWS c = false) :
    pyStripL l = l := by
  unfold pyStripL
  rw [dropWhile_eq_self_of_head _ _ h1]
  rw [dropWhile_eq_self_of_head]
  · exact l.reverse_reverse
  · intro c hc
    rw [List.head?_reverse] at hc
    exact h2 c hc

theorem getLast?_of_suffix {α : Type} {l₁ l₂ : List α} (h : l₁ <:+ l₂) (hne : l₁ ≠ []) :
    l₂.getLast? = l₁.getLast? := by
  obtain ⟨t, rfl⟩ := h
  rw [List.getLast?_append]
  cases hl : l₁.getLast? with
  | none => exact absurd (List.getLast?_eq_none_iff.mp hl) hne
  | some c => rfl

theorem pyStripL_getLast (l : List Char) :
    ∀ c, (pyStripL l).getLast? = some c → isWS c = false := by
  intro c hc
  unfold pyStripL at hc
  rw [List.getLast?_reverse] at hc
  have := List.head?_dropWhile_not isWS ((l.dropWhile isWS).reverse)
  rw [hc] at this
  exact this

theorem pyStripL_head (l : List Char) :
    ∀ c, (pyStripL l).head? = some c → isWS c = false := by
  intro c hc
  unfold pyStripL at hc
  rw [List.head?_reverse] at hc
  set x := (l.dropWhile isWS).reverse.dropWhile isWS with hx
  have hne : x ≠ [] := by
    intro he
    rw [he] at hc
    cases hc
  have hsuf : x <:+ (l.dropWhile isWS).reverse := List.dropWhile_suffix isWS
  rw [← getLast?_of_suffix hsuf hne, List.getLast?_reverse] at hc
  have := List.head?_dropWhile_not isWS l
  rw [hc] at this
  exact this

theorem pyStripL_idem (l : List Char) : pyStripL (pyStripL l) = pyStripL l :=
  pyStripL_eq_self (pyStripL_head l) (pyStripL_getLast l)

theorem pyStrip_idem (s : String) : pyStrip (pyStrip s) = pyStrip s := by
  unfold pyStrip
  exact congrArg String.mk (pyStripL_idem s.data)

/-! ### Facts about `pyWords` and `joinSpaceL` -/

/-- A token is "good" when it is nonempty and contains no whitespace. -/
def goodToken (t : List Char) : Prop := t ≠ [] ∧ ∀ c ∈ t, isWS c = false

theorem wordsAux_append_nonWS (t : List Char) :
    ∀ (cs acc : List Char), (∀ c ∈ t, isWS c = false) →
      wordsAux (t ++ cs) acc = wordsAux cs (t.reverse ++ acc) := by
  induction t with
  | nil => simp
  | cons c t' ih =>
    intro cs acc h
    have hc : isWS c = false := h c (List.mem_cons_self c t')
    show wordsAux (c :: (t' ++ cs)) acc = _
    rw [wordsAux, hc]
    simp only [Bool.false_eq_true, if_false]
    rw [ih cs (c :: acc) (fun d hd => h d (List.mem_cons_of_mem c hd))]
    simp [List.append_assoc]

theorem wordsAux_good : ∀ (l acc : List Char), (∀ c ∈ acc, isWS c = false) →
    ∀ t ∈ wordsAux l acc, goodToken t := by
  intro l
  induction l with
  | nil =>
    intro acc hacc t ht
    rw [wordsAux] at ht
    split at ht
    · cases ht
    · next hne =>
      rw [List.mem_singleton] at ht
      subst ht
      constructor
      · simp only [ne_eq, List.reverse_eq_nil_iff]
        intro he
        rw [he] at hne
        exact hne rfl
      · intro c hc
        exact hacc c (List.mem_reverse.mp hc)
  | cons c cs ih =>
    intro acc hacc t ht
    rw [wordsAux] at ht
    split at ht
    · split at ht
      · exact ih [] (by simp) t ht
      · next hne =>
        rw [List.mem_cons] at ht
        rcases ht with rfl | ht
        · constructor
          · simp only [ne_eq, List.reverse_eq_nil_iff]
            intro he
            rw [he] at hne
            exact hne rfl
          · intro d hd
            exact hacc d (List.mem_reverse.mp hd)
        · exact ih [] (by simp) t ht
    · next hc =>
      refine ih (c :: acc) ?_ t ht
      intro d hd
      rcases List.mem_cons.mp hd with rfl | hd
      · exact Bool.not_eq_true _ ▸ (by simpa using hc)
      · exact hacc d hd

theorem pyWordsL_good (l : List Char) : ∀ t ∈ pyWordsL l, goodToken t :=
  wordsAux_good l [] (by simp)

theorem pyWordsL_joinSpace : ∀ (ts : List (List Char)), (∀ t ∈ ts, goodToken t) →
    pyWordsL (joinSpaceL ts) = ts := by
  intro ts
  induction ts with
  | nil => intro; rfl
  | cons t ts' ih =>
    intro h
    have ht : goodToken t := h t (List.mem_cons_self t ts')
    cases ts' with
    | nil =>
      show wordsAux (joinSpaceL [t]) [] = [t]
      have : joinSpaceL [t] = t := rfl
      rw [this, ← List.append_nil t, wordsAux_append_nonWS t [] [] ht.2]
      rw [wordsAux]
      rw [if_neg (by simp [ht.1])]
      simp
    | cons t2 ts'' =>
      show wordsAux (t ++ ' ' :: joinSpaceL (t2 :: ts'')) [] = t :: t2 :: ts''
      rw [wordsAux_append_nonWS t _ [] ht.2]
      rw [wordsAux]
      rw [if_pos (by decide)]
      rw [if_neg (by simp [ht.1])]
      rw [List.append_nil, List.reverse_reverse]
      rw [show wordsAux (joinSpaceL (t2 :: ts'')) [] = pyWordsL (joinSpaceL (t2 :: ts'')) from rfl]
      rw [ih (fun u hu => h u (List.mem_cons_of_mem t hu))]

theorem joinSpaceL_ne_nil (t : List Char) (ts : List (List Char)) (ht : t ≠ []) :
    joinSpaceL (t :: ts) ≠ [] := by
  cases ts with
  | nil => exact ht
  | cons t2 ts' => simp [joinSpaceL, ht]

theorem joinSpaceL_head (ts : List (List Char)) (h : ∀ t ∈ ts, goodToken t) :
    ∀ c, (joinSpaceL ts).head? = some c → isWS c = false := by
  intro c hc
  cases ts with
  | nil => cases hc
  | cons t ts' =>
    have ht := h t (List.mem_cons_self t ts')
    have hmem : c ∈ t := by
      cases ts' with
      | nil =>
        obtain ⟨ys, hys⟩ := List.head?_eq_some_iff.mp hc
        rw [show joinSpaceL [t] = t from rfl] at hys
        rw [hys]
        exact List.mem_cons_self c ys
      | cons t2 ts'' =>
        rw [show joinSpaceL (t :: t2 :: ts'') = t ++ ' ' :: joinSpaceL (t2 :: ts'') from rfl] at hc
        rw [List.head?_append] at hc
        cases hht : t.head? with
        | none => exact absurd (List.head?_eq_none_iff.mp hht) ht.1
        | some d =>
          rw [hht] at hc
          cases hc
          obtain ⟨ys, hys⟩ := List.head?_eq_some_iff.mp hht
          rw [hys]
          exact List.mem_cons_self c ys
    exact ht.2 c hmem

theorem joinSpaceL_getLast (ts : List (List Char)) (h : ∀ t ∈ ts, goodToken t) :
    ∀ c, (joinSpaceL ts).getLast? = some c → isWS c = false := by
  intro c hc
  induction ts with
  | nil => cases hc
  | cons t ts' ih =>
    have ht := h t (List.mem_cons_self t ts')
    cases ts' with
    | nil =>
      rw [show joinSpaceL [t] = t from rfl] at hc
      exact ht.2 c (List.mem_of_getLast?_eq_some hc)
    | cons t2 ts'' =>
      rw [show joinSpaceL (t :: t2 :: ts'') = t ++ ' ' :: joinSpaceL (t2 :: ts'') from rfl] at hc
      have h2 : ∀ u ∈ t2 :: ts'', goodToken u := fun u hu => h u (List.mem_cons_of_mem t hu)
      have hne2 : joinSpaceL (t2 :: ts'') ≠ [] :=
        joinSpaceL_ne_nil t2 ts'' (h2 t2 (List.mem_cons_self t2 ts'')).1
      rw [List.getLast?_append] at hc
      have hcons : (' ' :: joinSpaceL (t2 :: ts'')).getLast? = (joinSpaceL (t2 :: ts'')).getLast? := by
        have : joinSpaceL (t2 :: ts'') <:+ ' ' :: joinSpaceL (t2 :: ts'') := ⟨[' '], rfl⟩
        exact (getLast?_of_suffix this hne2)
      rw [hcons] at hc
      cases hl : (joinSpaceL (t2 :: ts'')).getLast? with
      | none => exact absurd (List.getLast?_eq_none_iff.mp hl) hne2
      | some d =>
        rw [hl] at hc
        cases hc
        exact ih h2 hl

theorem pyCollapseL_strip (l : List Char) : pyStripL (pyCollapseL l) = pyCollapseL l := by
  apply pyStripL_eq_self
  · exact joinSpaceL_head (pyWordsL l) (pyWordsL_good l)
  · exact joinSpaceL_getLast (pyWordsL l) (pyWordsL_good l)

theorem pyCollapseL_idem (l : List Char) : pyCollapseL (pyCollapseL l) = pyCollapseL l := by
  show joinSpaceL (pyWordsL (joinSpaceL (pyWordsL l))) = _
  rw [pyWordsL_joinSpace (pyWordsL l) (pyWordsL_good l)]
  rfl

/-! ### Facts about `pyLower` -/

theorem isWS_comp_toLower : (fun c => isWS (Char.toLower c)) = isWS :=
  funext isWS_toLower

theorem pyStripL_pyLowerL (l : List Char) : pyStripL (pyLowerL l) = pyLowerL (pyStripL l) := by
  have hpred : isWS ∘ Char.toLower = isWS := funext isWS_toLower
  unfold pyStripL pyLowerL
  rw [List.dropWhile_map, hpred, ← List.map_reverse, List.dropWhile_map, hpred, ← List.map_reverse]

theorem pyLowerL_idem (l : List Char) : pyLowerL (pyLowerL l) = pyLowerL l := by
  unfold pyLowerL
  rw [List.map_map]
  exact List.map_congr_left (fun c _ => toLower_idem c)

/-! ### The record model

A collected-record dict has the six main string fields and six auxiliary
fields that may hold non-string values (`hours` is sometimes a JSON dump,
sometimes absent, etc.).  `none` models an absent key.  The worker dicts
additionally carry a `search_query` key; `clean_data_entry` never reads
it and drops it from its output, and no claim mentions it, so it is left
out of the model. -/

inductive JVal
  | str (s : String)
  | other
deriving DecidableEq

structure PyDict where
  name : Option String
  phone : Option String
  email : Option String
  website : Option String
  instagram : Option String
  address : Option String
  country : Option JVal
  state : Option JVal
  location : Option JVal
  hours : Option JVal
  products_services : Option JVal
  image_path : Option JVal
deriving DecidableEq

/-- `data.get(key, 'N/A')` for a string field. -/
def getS (v : Option String) : String := v.getD "N/A"

/-- `data.get(key, 'N/A')` for an auxiliary field. -/
def getJ (v : Option JVal) : JVal := v.getD (.str "N/A")

/-! ### `DataProcessor.clean_data_entry` (src/core/data_processor.py 12-78;
the GUI carries a textually identical copy in src/ui/main_window.py 718-783) -/

/-- Name and address cleaning: `strip()` then `' '.join(split())`. -/
def cleanNameStr (s : String) : String := ⟨pyCollapseL (pyStripL s.data)⟩

/-- `re.sub(r'[^\d+]', '', phone)`: keep only digits and `+`. -/
def phoneFilter (s : String) : String := ⟨s.data.filter (fun c => c.isDigit || c = '+')⟩

/-- Phone cleaning: filter, then prepend the Nigeria country code when the
result is at least 10 characters and has no leading `+`
(`phone[-10:]` of a 10-character string is the whole string). -/
def cleanPhoneStr (s : String) : String :=
  if phoneFilter s ≠ "" ∧ pyStartsWith (phoneFilter s) "+" = false ∧ 10 ≤ (phoneFilter s).length then
    if (phoneFilter s).length = 10 then
      "+234" ++ ⟨(phoneFilter s).data.drop ((phoneFilter s).data.length - 10)⟩
    else "+234" ++ phoneFilter s
  else phoneFilter s

/-- Email cleaning: `strip().lower()`. -/
def cleanEmailStr (s : String) : String := pyLower (pyStrip s)

/-- Website cleaning: `strip()`, then prefix `https://` when no scheme. -/
def cleanWebsiteStr (s : String) : String :=
  if pyStartsWith (pyStrip s) "http://" || pyStartsWith (pyStrip s) "https://" then pyStrip s
  else "https://" ++ pyStrip s

/-- Instagram cleaning: `strip()`, then build an instagram.com URL when
no scheme, dropping a leading `@`. -/
def cleanInstagramStr (s : String) : String :=
  if pyStartsWith (pyStrip s) "http://" || pyStartsWith (pyStrip s) "https://" then pyStrip s
  else if pyStartsWith (pyStrip s) "@" then
    "https://instagram.com/" ++ ⟨(pyStrip s).data.drop 1⟩
  else "https://instagram.com/" ++ pyStrip s

/-- One main field: fetch with default `'N/A'`, clean unless it is the
sentinel. -/
def cleanField (f : String → String) (v : Option String) : String :=
  let x := getS v
  if x = "N/A" then x else f x

/-- One auxiliary field: `strip()` only when the value is a string other
than the sentinel. -/
def cleanExtra (v : Option JVal) : JVal :=
  match getJ v with
  | .str s => if s = "N/A" then .str s else .str (pyStrip s)
  | .other => .other

/-- `DataProcessor.clean_data_entry`: builds a new dict with exactly the
twelve keys. -/
def clean_data_entry (d : PyDict) : PyDict where
  name := some (cleanField cleanNameStr d.name)
  phone := some (cleanField cleanPhoneStr d.phone)
  email := some (cleanField cleanEmailStr d.email)
  website := some (cleanField cleanWebsiteStr d.website)
  instagram := some (cleanField cleanInstagramStr d.instagram)
  address := some (cleanField cleanNameStr d.address)
  country := some (cleanExtra d.country)
  state := some (cleanExtra d.state)
  location := some (cleanExtra d.location)
  hours := some (cleanExtra d.hours)
  products_services := some (cleanExtra d.products_services)
  image_path := some (cleanExtra d.image_path)

/-! ### Idempotence of the field cleaners -/

theorem cleanNameStr_idem (s : String) : cleanNameStr (cleanNameStr s) = cleanNameStr s := by
  show (⟨pyCollapseL (pyStripL (pyCollapseL (pyStripL s.data)))⟩ : String) = _
  rw [pyCollapseL_strip, pyCollapseL_idem]
  rfl

theorem phoneFilter_chars (s : String) :
    ∀ c ∈ (phoneFilter s).data, (c.isDigit || c = '+') = true := by
  intro c hc
  exact (List.mem_filter.mp hc).2

theorem phoneFilter_eq_self {s : String}
    (h : ∀ c ∈ s.data, (c.isDigit || c = '+') = true) : phoneFilter s = s := by
  show (⟨s.data.filter _⟩ : String) = s
  rw [List.filter_eq_self.mpr h]

theorem pyStartsWith_append (pre s : String) : pyStartsWith (pre ++ s) pre = true := by
  unfold pyStartsWith
  rw [String.data_append]
  exact List.isPrefixOf_iff_prefix.mpr (List.prefix_append _ _)

theorem cleanPhoneStr_idem (s : String) : cleanPhoneStr (cleanPhoneStr s) = cleanPhoneStr s := by
  by_cases hcond : phoneFilter s ≠ "" ∧ pyStartsWith (phoneFilter s) "+" = false ∧
      10 ≤ (phoneFilter s).length
  · -- the country code was prepended; the result starts with '+' and is
    -- left unchanged by a second pass
    have hres : cleanPhoneStr s = (if (phoneFilter s).length = 10 then
        "+234" ++ ⟨(phoneFilter s).data.drop ((phoneFilter s).data.length - 10)⟩
      else "+234" ++ phoneFilter s) := by
      unfold cleanPhoneStr
      rw [if_pos hcond]
    obtain ⟨x, hx⟩ : ∃ x : String,
        cleanPhoneStr s = "+234" ++ x ∧ ∀ c ∈ x.data, (c.isDigit || c = '+') = true := by
      rw [hres]
      split
      · exact ⟨⟨(phoneFilter s).data.drop ((phoneFilter s).data.length - 10)⟩, rfl,
          fun c hc => phoneFilter_chars s c (List.mem_of_mem_drop hc)⟩
      · exact ⟨phoneFilter s, rfl, phoneFilter_chars s⟩
    rw [hx.1]
    have hfilter : phoneFilter ("+234" ++ x) = "+234" ++ x := by
      apply phoneFilter_eq_self
      intro c hc
      rw [String.data_append] at hc
      rcases List.mem_append.mp hc with hca | hcb
      · fin_cases hca <;> decide
      · exact hx.2 c hcb
    have hplus : pyStartsWith ("+234" ++ x) "+" = true := by
      unfold pyStartsWith
      rw [String.data_append]
      show List.isPrefixOf ['+'] ('+' :: ('2' :: '3' :: '4' :: x.data)) = true
      simp [List.isPrefixOf]
    unfold cleanPhoneStr
    rw [hfilter, if_neg]
    intro hcc
    rw [hplus] at hcc
    cases hcc.2.1
  · have hres : cleanPhoneStr s = phoneFilter s := by
      unfold cleanPhoneStr
      rw [if_neg hcond]
    rw [hres]
    have hfilter : phoneFilter (phoneFilter s) = phoneFilter s :=
      phoneFilter_eq_self (phoneFilter_chars s)
    unfold cleanPhoneStr
    rw [hfilter, if_neg hcond]

theorem cleanEmailStr_idem (s : String) : cleanEmailStr (cleanEmailStr s) = cleanEmailStr s := by
  show (⟨pyLowerL (pyStripL (pyLowerL (pyStripL s.data)))⟩ : String) = _
  rw [pyStripL_pyLowerL, pyStripL_idem, pyLowerL_idem]
  rfl

theorem pyStripL_append_clean (p w : List Char) (hp : p ≠ [])
    (hph : ∀ c, p.head? = some c → isWS c = false)
    (hpl : ∀ c, p.getLast? = some c → isWS c = false)
    (hwl : ∀ c, w.getLast? = some c → isWS c = false) :
    pyStripL (p ++ w) = p ++ w := by
  apply pyStripL_eq_self
  · intro c hc
    rw [List.head?_append] at hc
    cases hpp : p.head? with
    | none => exact absurd (List.head?_eq_none_iff.mp hpp) hp
    | some d =>
      rw [hpp] at hc
      cases hc
      exact hph _ hpp
  · intro c hc
    rw [List.getLast?_append] at hc
    cases hww : w.getLast? with
    | none =>
      rw [hww] at hc
      simp only [Option.none_or] at hc
      exact hpl _ hc
    | some d =>
      rw [hww] at hc
      cases hc
      exact hwl _ hww

theorem getLast?_drop_isWS (l : List Char) (n : Nat)
    (h : ∀ c, l.getLast? = some c → isWS c = false) :
    ∀ c, (l.drop n).getLast? = some c → isWS c = false := by
  intro c hc
  have hne : l.drop n ≠ [] := by
    intro he
    rw [he] at hc
    cases hc
  have heq := getLast?_of_suffix (List.drop_suffix n l) hne
  exact h c (heq ▸ hc)

theorem cleanWebsiteStr_idem (s : String) : cleanWebsiteStr (cleanWebsiteStr s) = cleanWebsiteStr s := by
  by_cases h : (pyStartsWith (pyStrip s) "http://" || pyStartsWith (pyStrip s) "https://") = true
  · have hres : cleanWebsiteStr s = pyStrip s := by
      unfold cleanWebsiteStr
      rw [if_pos h]
    rw [hres]
    unfold cleanWebsiteStr
    rw [pyStrip_idem, if_pos h]
  · have hres : cleanWebsiteStr s = "https://" ++ pyStrip s := by
      unfold cleanWebsiteStr
      rw [if_neg h]
    rw [hres]
    have hstrip : pyStrip ("https://" ++ pyStrip s) = "https://" ++ pyStrip s := by
      show (⟨pyStripL (("https://" ++ pyStrip s)).data⟩ : String) = _
      rw [String.data_append]
      rw [pyStripL_append_clean "https://".data (pyStrip s).data (by decide)
        (by intro c hc; cases hc; decide) (by intro c hc; cases hc; decide)
        (pyStripL_getLast s.data)]
      rfl
    have hsw : pyStartsWith ("https://" ++ pyStrip s) "https://" = true :=
      pyStartsWith_append _ _
    unfold cleanWebsiteStr
    rw [hstrip, hsw, Bool.or_true, if_pos rfl]

theorem instaPrefix_assoc (x : String) :
    ("https://instagram.com/" : String) ++ x = "https://" ++ ("instagram.com/" ++ x) := by
  rw [← String.append_assoc]
  exact congrArg (fun y => y ++ x)
    (show ("https://instagram.com/" : String) = "https://" ++ "instagram.com/" by decide)

theorem cleanInstagramStr_idem (s : String) :
    cleanInstagramStr (cleanInstagramStr s) = cleanInstagramStr s := by
  by_cases h : (pyStartsWith (pyStrip s) "http://" || pyStartsWith (pyStrip s) "https://") = true
  · have hres : cleanInstagramStr s = pyStrip s := by
      unfold cleanInstagramStr
      rw [if_pos h]
    rw [hres]
    unfold cleanInstagramStr
    rw [pyStrip_idem, if_pos h]
  · -- in both remaining branches the result is "https://instagram.com/" ++ x
    -- with x free of trailing whitespace
    obtain ⟨x, hx⟩ : ∃ x : String, cleanInstagramStr s = "https://instagram.com/" ++ x ∧
        ∀ c, x.data.getLast? = some c → isWS c = false := by
      unfold cleanInstagramStr
      rw [if_neg h]
      split
      · exact ⟨⟨(pyStrip s).data.drop 1⟩, rfl, getLast?_drop_isWS _ 1 (pyStripL_getLast s.data)⟩
      · exact ⟨pyStrip s, rfl, pyStripL_getLast s.data⟩
    rw [hx.1]
    have hstrip : pyStrip ("https://instagram.com/" ++ x) = "https://instagram.com/" ++ x := by
      show (⟨pyStripL (("https://instagram.com/" ++ x)).data⟩ : String) = _
      rw [String.data_append]
      rw [pyStripL_append_clean "https://instagram.com/".data x.data (by decide)
        (by intro c hc; cases hc; decide) (by intro c hc; cases hc; decide) hx.2]
      rfl
    have hsw : pyStartsWith ("https://instagram.com/" ++ x) "https://" = true := by
      rw [instaPrefix_assoc]
      exact pyStartsWith_append _ _
    unfold cleanInstagramStr
    rw [hstrip, hsw, Bool.or_true, if_pos rfl]

theorem cleanField_idem (f : String → String) (hf : ∀ s, f (f s) = f s) (v : Option String) :
    cleanField f (some (cleanField f v)) = cleanField f v := by
  have expand : ∀ (w : Option String),
      cleanField f w = if getS w = "N/A" then getS w else f (getS w) := fun w => rfl
  set y := cleanField f v with hy
  rw [expand (some y)]
  have hg : getS (some y) = y := rfl
  rw [hg]
  by_cases hy2 : y = "N/A"
  · rw [if_pos hy2]
  · rw [if_neg hy2]
    by_cases hx : getS v = "N/A"
    · exact absurd (by rw [hy, expand v, if_pos hx, hx]) hy2
    · have hyv : y = f (getS v) := by rw [hy, expand v, if_neg hx]
      rw [hyv]
      exact hf _

theorem cleanExtra_idem (v : Option JVal) : cleanExtra (some (cleanExtra v)) = cleanExtra v := by
  unfold cleanExtra getJ
  cases hv : v.getD (JVal.str "N/A") with
  | other => simp
  | str s =>
    simp only [Option.getD_some]
    by_cases hs : s = "N/A"
    · simp [hs]
    · rw [if_neg hs]
      by_cases h2 : pyStrip s = "N/A"
      · simp [h2]
      · simp only [if_neg h2]
        rw [pyStrip_idem]

/-! ### `DataProcessor.remove_duplicates` (src/core/data_processor.py 112-132) -/

/-- The dedup key: `(item.get('name','').strip().lower(),
item.get('address','').strip().lower())`. -/
def dedupKey (d : PyDict) : String × String :=
  (pyLower (pyStrip (d.name.getD "")), pyLower (pyStrip (d.address.getD "")))

/-- The loop of `remove_duplicates`: `seen` is the `unique_entries` set. -/
def removeDupsAux (seen : List (String × String)) : List PyDict → List PyDict
  | [] => []
  | x :: xs =>
    if dedupKey x ∈ seen then removeDupsAux seen xs
    else x :: removeDupsAux (dedupKey x :: seen) xs

def remove_duplicates (l : List PyDict) : List PyDict := removeDupsAux [] l

/-- Specification-side reference function: keep each entry exactly when it
is the first occurrence of its dedup key, in input order. -/
def keepFirstByKey : List PyDict → List PyDict
  | [] => []
  | x :: xs => x :: keepFirstByKey (xs.filter (fun y => dedupKey y ≠ dedupKey x))
termination_by l => l.length
decreasing_by
  simp only [List.length_cons]
  exact Nat.lt_succ_of_le (List.length_filter_le _ _)

theorem removeDupsAux_eq (l : List PyDict) : ∀ (seen : List (String × String)),
    removeDupsAux seen l = keepFirstByKey (l.filter (fun y => dedupKey y ∉ seen)) := by
  induction l with
  | nil =>
    intro seen
    rw [List.filter_nil, keepFirstByKey]
    rfl
  | cons x xs ih =>
    intro seen
    by_cases hx : dedupKey x ∈ seen
    · rw [removeDupsAux, if_pos hx]
      rw [List.filter_cons, if_neg (by simpa using hx)]
      exact ih seen
    · rw [removeDupsAux, if_neg hx]
      rw [List.filter_cons, if_pos (by simpa using hx)]
      rw [keepFirstByKey, ih (dedupKey x :: seen)]
      rw [List.filter_filter]
      congr 2
      apply List.filter_congr
      intro y _
      by_cases h1 : dedupKey y = dedupKey x <;> by_cases h2 : dedupKey y ∈ seen <;>
        simp [List.mem_cons, h1, h2]

theorem removeDupsAux_sublist (l : List PyDict) : ∀ (seen : List (String × String)),
    (removeDupsAux seen l).Sublist l := by
  induction l with
  | nil => intro seen; exact List.Sublist.refl []
  | cons x xs ih =>
    intro seen
    rw [removeDupsAux]
    split
    · exact (ih seen).cons x
    · exact (ih (dedupKey x :: seen)).cons₂ x

theorem removeDupsAux_notin_seen (l : List PyDict) : ∀ (seen : List (String × String)),
    ∀ y ∈ removeDupsAux seen l, dedupKey y ∉ seen := by
  induction l with
  | nil => intro seen y hy; cases hy
  | cons x xs ih =>
    intro seen y hy
    rw [removeDupsAux] at hy
    split at hy
    · exact ih seen y hy
    · next hx =>
      rcases List.mem_cons.mp hy with rfl | hy
      · exact hx
      · have := ih (dedupKey x :: seen) y hy
        intro hmem
        exact this (List.mem_cons_of_mem _ hmem)

theorem removeDupsAux_pairwise (l : List PyDict) : ∀ (seen : List (String × String)),
    (removeDupsAux seen l).Pairwise (fun a b => dedupKey a ≠ dedupKey b) := by
  induction l with
  | nil => intro seen; exact List.Pairwise.nil
  | cons x xs ih =>
    intro seen
    rw [removeDupsAux]
    split
    · exact ih seen
    · refine List.Pairwise.cons ?_ (ih (dedupKey x :: seen))
      intro y hy
      have := removeDupsAux_notin_seen xs (dedupKey x :: seen) y hy
      intro he
      exact this (he ▸ List.mem_cons_self _ _)

/-- C10: `remove_duplicates` keeps exactly the first occurrence of each
`(lowercased stripped name, lowercased stripped address)` key, preserves
relative order of the kept entries (it is a sublist of the input), and the
kept entries have pairwise distinct keys. -/
theorem C10_remove_duplicates_keeps_first_occurrences (l : List PyDict) :
    remove_duplicates l = keepFirstByKey l
    ∧ (remove_duplicates l).Sublist l
    ∧ (remove_duplicates l).Pairwise (fun a b => dedupKey a ≠ dedupKey b) := by
  refine ⟨?_, removeDupsAux_sublist l [], removeDupsAux_pairwise l []⟩
  rw [remove_duplicates, removeDupsAux_eq l []]
  congr 1
  rw [List.filter_eq_self.mpr]
  intro y _
  simp

/-- C9: `clean_data_entry` is idempotent: re-cleaning an already cleaned
entry changes no field. -/
theorem C9_clean_data_entry_idempotent (d : PyDict) :
    clean_data_entry (clean_data_entry d) = clean_data_entry d := by
  simp only [clean_data_entry]
  rw [cleanField_idem cleanNameStr cleanNameStr_idem d.name,
      cleanField_idem cleanPhoneStr cleanPhoneStr_idem d.phone,
      cleanField_idem cleanEmailStr cleanEmailStr_idem d.email,
      cleanField_idem cleanWebsiteStr cleanWebsiteStr_idem d.website,
      cleanField_idem cleanInstagramStr cleanInstagramStr_idem d.instagram,
      cleanField_idem cleanNameStr cleanNameStr_idem d.address,
      cleanExtra_idem d.country, cleanExtra_idem d.state, cleanExtra_idem d.location,
      cleanExtra_idem d.hours, cleanExtra_idem d.products_services,
      cleanExtra_idem d.image_path]

/-- C8: for a phone value other than `"N/A"`, when the filtered string
(digits and `+` only) does not start with `+` and has length at least 10,
`clean_data_entry` prepends `+234` (to the last 10 characters when the
length is exactly 10 — which is the whole string — and to the whole string
otherwise); shorter filtered strings come back without any code added. -/
theorem C8_phone_country_code (d : PyDict) (p : String)
    (hp : d.phone = some p) (hne : p ≠ "N/A") :
    (pyStartsWith (phoneFilter p) "+" = false → 10 ≤ (phoneFilter p).length →
      (clean_data_entry d).phone = some ("+234" ++
        (if (phoneFilter p).length = 10
          then ⟨(phoneFilter p).data.drop ((phoneFilter p).data.length - 10)⟩
          else phoneFilter p)))
    ∧ ((phoneFilter p).length < 10 →
      (clean_data_entry d).phone = some (phoneFilter p)) := by
  have hfield : (clean_data_entry d).phone = some (cleanPhoneStr p) := by
    show some (cleanField cleanPhoneStr d.phone) = _
    rw [hp]
    show some (if getS (some p) = "N/A" then getS (some p) else cleanPhoneStr (getS (some p))) = _
    have hg : getS (some p) = p := rfl
    rw [hg, if_neg hne]
  constructor
  · intro hsw hlen
    rw [hfield]
    have hnonempty : phoneFilter p ≠ "" := by
      intro he
      rw [he] at hlen
      exact absurd hlen (by decide)
    rw [show cleanPhoneStr p = _ from rfl]
    unfold cleanPhoneStr
    rw [if_pos ⟨hnonempty, hsw, hlen⟩]
    split
    · rfl
    · rfl
  · intro hlen
    rw [hfield]
    show some (cleanPhoneStr p) = _
    unfold cleanPhoneStr
    rw [if_neg]
    intro hcc
    omega

/-- Witness for C8 at the concrete phone `"0801 234 5678"`. -/
theorem C8_phone_country_code_witness :
    (clean_data_entry ⟨none, some "0801 234 5678", none, none, none, none,
      none, none, none, none, none, none⟩).phone = some "+23408012345678" := by
  have h := C8_phone_country_code
    ⟨none, some "0801 234 5678", none, none, none, none,
      none, none, none, none, none, none⟩ "0801 234 5678" rfl (by decide)
  have h2 := h.1 (by decide) (by decide)
  rw [h2]
  decide

/-! ### The free-text address fallbacks (src/core/data_collection.py)

`DataProcessor.extract_info_from_result` (lines 153-168) scans the lines
of the result element's text before clicking; `DataProcessor.extract_data`
(lines 239-250) scans the detail page's `div.fontBodyMedium` texts. -/

/-- `[line.strip() for line in text.split('\n') if line.strip()]`. -/
def resultTextLines (text : String) : List String :=
  (((text.data.splitOn '\n').map pyStripL).filter (· ≠ [])).map (⟨·⟩)

/-- The pre-click fallback: `text` is `result_element.text`, `name` the
already-extracted `info['name']`; skip the first line, accept the first
line containing a digit OR having more than three tokens. -/
def preClickAddressFallback (rawText : String) (name : String) : Option String :=
  if pyStrip rawText ≠ "" ∧ pyStrip rawText ≠ "Results" ∧ pyStrip rawText ≠ name then
    if 1 < (resultTextLines (pyStrip rawText)).length then
      ((resultTextLines (pyStrip rawText)).drop 1).find?
        (fun line => hasDigit line || decide (3 < (pyWords line).length))
    else none
  else none

/-- The detail-page fallback: first stripped element text that is nonempty
AND contains a digit AND has more than three tokens, else `"N/A"`. -/
def detailAddressFallback (elementTexts : List String) : String :=
  match (elementTexts.map pyStrip).find?
      (fun t => decide (t ≠ "" ∧ hasDigit t = true ∧ 3 < (pyWords t).length)) with
  | some t => t
  | none => "N/A"

/-- C6 (counterexample): the pre-click result-element fallback accepts the
line `"Suite 5"` (it contains a digit), which fails the conjunctive
digit-AND-more-than-three-tokens filter; so the two fallbacks are NOT
governed by the same conjunctive filter. -/
theorem C6_counterexample_preclick_disjunctive :
    preClickAddressFallback "Mama Shop\nSuite 5" "Mama Shop" = some "Suite 5"
    ∧ ¬ (hasDigit "Suite 5" = true ∧ 3 < (pyWords "Suite 5").length) := by
  constructor
  · decide
  · decide

/-- C6 (amended): the detail-page fallback accepts a text only if it passes
the conjunctive filter (digit AND more than three tokens), while the
pre-click result-element fallback accepts a line if it passes the
disjunctive filter (digit OR more than three tokens). -/
theorem C6_address_validity_filters :
    (∀ (texts : List String) (t : String), detailAddressFallback texts = t → t ≠ "N/A" →
      hasDigit t = true ∧ 3 < (pyWords t).length)
    ∧ (∀ (raw name line : String), preClickAddressFallback raw name = some line →
      (hasDigit line || decide (3 < (pyWords line).length)) = true) := by
  constructor
  · intro texts t ht hne
    unfold detailAddressFallback at ht
    split at ht
    · next u hu =>
      have hp := List.find?_some hu
      rw [ht] at hp
      have := of_decide_eq_true hp
      exact ⟨this.2.1, this.2.2⟩
    · exact absurd ht.symm hne
  · intro raw name line hline
    unfold preClickAddressFallback at hline
    split at hline
    · split at hline
      · have hp := List.find?_some hline
        exact hp
      · cases hline
    · cases hline

/-- Witness for C6 at concrete inputs: a real address passes the detail
filter, and the pre-click fallback's accepted line passes the disjunctive
filter. -/
theorem C6_address_validity_filters_witness :
    (hasDigit "12 Allen Avenue Ikeja Lagos" = true ∧
      3 < (pyWords "12 Allen Avenue Ikeja Lagos").length)
    ∧ (hasDigit "Suite 5" || decide (3 < (pyWords "Suite 5").length)) = true :=
  ⟨C6_address_validity_filters.1 ["12 Allen Avenue Ikeja Lagos"]
      "12 Allen Avenue Ikeja Lagos" (by decide) (by decide),
   C6_address_validity_filters.2 "Mama Shop\nSuite 5" "Mama Shop" "Suite 5" (by decide)⟩

/-! ### `EmailExtractor` (src/utils/data_extraction.py 15-88)

The five obfuscation-tolerant patterns of `EmailExtractor.__init__` and the
text-scanning/cleanup part of `extract_emails` are modelled with a small
regex interpreter.  `re.findall` scans left to right without overlap; the
model instead collects every matching substring at every position — a
superset that is empty exactly when `findall` finds nothing, and that
coincides with `findall` on the inputs analysed here. -/

inductive REItem
  | cls (p : Char → Bool)
  | lit (s : List Char)
  | plusCls (p : Char → Bool)
  | starWS
  | rep2 (p : Char → Bool)
  | wb

/-- `\w` for the purpose of `\b`. -/
def isWordChar (c : Char) : Bool := c.isAlphanum || c = '_'

def sideWord : Option Char → Bool
  | none => false
  | some c => isWordChar c

/-- `\b`: the two sides disagree on word-char-ness. -/
def boundary (prev next : Option Char) : Bool := sideWord prev != sideWord next

/-- Case-insensitive character comparison (`re.IGNORECASE`). -/
def ciEq (a b : Char) : Bool := Char.toLower a == Char.toLower b

def ciPrefixOf : List Char → List Char → Bool
  | [], _ => true
  | _ :: _, [] => false
  | a :: as, b :: bs => ciEq a b && ciPrefixOf as bs

/-- All ways to consume `0, 1, 2, …` leading characters satisfying `p`,
in that order; each result is `((newPrev, rest), consumedChunk)`. -/
def runsFrom (p : Char → Bool) : Option Char → List Char → List Char →
    List ((Option Char × List Char) × List Char)
  | prev, rest, acc =>
    ((prev, rest), acc.reverse) ::
      (match rest with
       | [] => []
       | c :: cs => if p c then runsFrom p (some c) cs (c :: acc) else [])

/-- All ways one regex item can consume from a state `(prev, rest)`. -/
def consume : REItem → (Option Char × List Char) →
    List ((Option Char × List Char) × List Char)
  | .cls p, (_, rest) =>
    match rest with
    | [] => []
    | c :: cs => if p c then [((some c, cs), [c])] else []
  | .lit s, (prev, rest) =>
    if ciPrefixOf s rest then
      let consumed := rest.take s.length
      [((match consumed.getLast? with | some c => some c | none => prev,
         rest.drop s.length), consumed)]
    else []
  | .plusCls p, (prev, rest) => (runsFrom p prev rest []).drop 1
  | .starWS, (prev, rest) => runsFrom isWS prev rest []
  | .rep2 p, (prev, rest) => (runsFrom p prev rest []).drop 2
  | .wb, (prev, rest) => if boundary prev rest.head? then [((prev, rest), [])] else []

/-- All matched substrings of a whole pattern starting at a given state. -/
def matchesFrom : List REItem → (Option Char × List Char) → List (List Char)
  | [], _ => [[]]
  | it :: its, st =>
    (consume it st).flatMap (fun r => (matchesFrom its r.1).map (r.2 ++ ·))

def allMatchesAux (pat : List REItem) : Option Char → List Char → List (List Char)
  | prev, [] => matchesFrom pat (prev, [])
  | prev, c :: cs => matchesFrom pat (prev, c :: cs) ++ allMatchesAux pat (some c) cs

def allMatches (pat : List REItem) (text : List Char) : List (List Char) :=
  allMatchesAux pat none text

/-- Does the pattern match the whole input (anchored `^…$`)? -/
def matchFull : List REItem → (Option Char × List Char) → Bool
  | [], (_, rest) => rest.isEmpty
  | it :: its, st => (consume it st).any (fun r => matchFull its r.1)

/-- `[A-Za-z0-9._%+-]` -/
def emailLocalChar (c : Char) : Bool :=
  c.isAlphanum || c = '.' || c = '_' || c = '%' || c = '+' || c = '-'

/-- `[A-Za-z0-9.-]` -/
def emailDomainChar (c : Char) : Bool := c.isAlphanum || c = '.' || c = '-'

/-- `[A-Z|a-z]` as written in the source patterns: letters and a literal
pipe. -/
def alphaPipeChar (c : Char) : Bool := c.isAlpha || c = '|'

/-- The five members of `self.email_patterns`, in order. -/
def email_patterns : List (List REItem) :=
  [ [.wb, .plusCls emailLocalChar, .lit ['@'], .plusCls emailDomainChar,
     .lit ['.'], .rep2 alphaPipeChar, .wb],
    [.wb, .plusCls emailLocalChar, .starWS, .lit ['@'], .starWS,
     .plusCls emailDomainChar, .lit ['.'], .rep2 alphaPipeChar, .wb],
    [.wb, .plusCls emailLocalChar, .starWS, .lit ['['], .starWS, .lit ['@'],
     .starWS, .lit [']'], .starWS, .plusCls emailDomainChar, .lit ['.'],
     .rep2 alphaPipeChar, .wb],
    [.wb, .plusCls emailLocalChar, .lit ['(', 'a', 't', ')'],
     .plusCls emailDomainChar, .lit ['.'], .rep2 alphaPipeChar, .wb],
    [.wb, .plusCls emailLocalChar, .starWS, .lit ['(', 'a', ')'], .starWS,
     .plusCls emailDomainChar, .lit ['.'], .rep2 alphaPipeChar, .wb] ]

/-- `.replace('(at)', '@')` (left to right, non-overlapping). -/
def replAt : List Char → List Char
  | '(' :: 'a' :: 't' :: ')' :: rest => '@' :: replAt rest
  | c :: rest => c :: replAt rest
  | [] => []

/-- `.replace('(a)', '@')`. -/
def replA : List Char → List Char
  | '(' :: 'a' :: ')' :: rest => '@' :: replA rest
  | c :: rest => c :: replA rest
  | [] => []

/-- The cleanup chain of `extract_emails`:
`.replace(' ','').replace('[','').replace(']','').replace('(at)','@').replace('(a)','@')`. -/
def cleanupEmail (l : List Char) : List Char :=
  replA (replAt (l.filter (fun c => !(c == ' ' || c == '[' || c == ']'))))

/-- `EmailExtractor.validate_email`:
`^[a-zA-Z0-9._%+-]+@[a-zA-Z0-9.-]+\.[a-zA-Z]{2,}$`. -/
def validate_email (l : List Char) : Bool :=
  matchFull [.plusCls emailLocalChar, .lit ['@'], .plusCls emailDomainChar,
    .lit ['.'], .rep2 Char.isAlpha] (none, l)

/-- First-occurrence deduplication, standing in for the Python `set`
(whose listing order is unspecified; all results below are singletons or
empty, where the orders agree). -/
def dedupeAux : List String → List String → List String
  | _, [] => []
  | seen, x :: xs => if x ∈ seen then dedupeAux seen xs else x :: dedupeAux (x :: seen) xs

/-- The text-scanning portion of `EmailExtractor.extract_emails` applied to
one fetched page's text: match all patterns, clean up, validate, lowercase,
deduplicate; `["N/A"]` when nothing survives. -/
def extract_emails_from_text (text : String) : List String :=
  let raw := email_patterns.flatMap (fun pat => allMatches pat text.data)
  let valid := (raw.map cleanupEmail).filter validate_email
  let emails := dedupeAux [] (valid.map (fun l => pyLower ⟨l⟩))
  if emails.isEmpty then ["N/A"] else emails

/-- C5: the pattern set does NOT match the spaced obfuscation
`jane (at) shop.com` (the `(at)` pattern carries no `\s*`), so the
harvester returns `["N/A"]` instead of the specified `["jane@shop.com"]`;
the unspaced form `jane(at)shop.com` is matched and normalised, showing
the cleanup step (which strips spaces and rewrites `(at)`) expected the
spaced form to reach it. -/
theorem C5_spaced_at_pattern_not_matched :
    extract_emails_from_text "Contact: jane (at) shop.com today" = ["N/A"]
    ∧ extract_emails_from_text "Contact: jane(at)shop.com today" = ["jane@shop.com"] := by
  constructor
  · decide
  · decide

/-! ### The collection loop (`DataCollectorThread.run`, lines 578-664,
with `handle_data_ready` / `handle_entry_skipped` / `handle_worker_error`,
lines 690-713, and the per-entry filter of `DataProcessor.run`, lines
86-95)

The loop is modelled as a step function over an explicit state, driven by
a script of per-iteration environment events:
* `connLost b` — `internet_connected` is false at the top of the
  iteration; the loop pauses, then either resumes (`b = false`) or sees
  `is_running` false after a `stop()` during the wait (`b = true`);
* `batchRaise` — the `try` body raises during dispatch (transport error
  from `find_elements`/`load_more_results`/worker startup), caught at
  line 661: the error counter is incremented and nothing else changes;
* `batch found loadMore` — a normal iteration: `find_elements` returns
  `found` results; if `processed_count ≥ found`, `load_more_results` is
  attempted (`loadMore = none`: it returns False; `some n`: re-querying
  yields `n` results).

Worker outcomes are drawn from `cands : Nat → WOutcome` by candidate
index.  `st.emitted` and `st.collected` record the `data_ready`
emissions themselves (the eventual value of `collected_count`), which is
well-defined independently of delivery timing.  `handle_data_ready` is a
queued cross-thread slot run on the GUI thread, and `waitForDone` (line
647) does not flush the queued invocations, so the `while`-condition's
read of `collected_count` at line 581 may lag behind the emissions
already made: `runLoop` is the lag-free (synchronous-read) schedule, and
`runLoopAsync` below quantifies over every read lag.  The properties
proved on `runLoop` (which records emitted, not delivered, counts) are
insensitive to this timing; the acceptance bound of C1 is proved on
`runLoopAsync`.  `rate_limit` and proxy rotation touch no claim-relevant
state and are omitted. -/

structure RunCfg where
  numEntries : Nat
  skipMissingSocial : Bool
  country : String
  state : String
  location : String
deriving DecidableEq

/-- `self.max_to_process = self.num_entries * 5` (line 443). -/
def maxToProcess (cfg : RunCfg) : Nat := cfg.numEntries * 5

/-- One worker's result: an extracted data dict (after the name/address
fallback substitutions) or a failure (`data` None / an exception). -/
inductive WOutcome
  | extracted (r : PyDict)
  | failed
deriving DecidableEq

structure LoopState where
  collected : Nat
  processed : Nat
  skippedCount : Nat
  consecutiveErrors : Nat
  running : Bool
  emitted : List PyDict
deriving DecidableEq

def initState : LoopState := ⟨0, 0, 0, 0, true, []⟩

/-- `handle_data_ready` (lines 690-704) stamps the run's country,
location and state onto the record before emitting it. -/
def applyRunFields (cfg : RunCfg) (r : PyDict) : PyDict :=
  { r with country := some (.str cfg.country),
           location := some (.str cfg.location),
           state := some (.str cfg.state) }

/-- One worker's effect on the thread state: the completeness filter of
`DataProcessor.run` lines 86-95 decides between the skipped signal and
`data_ready`; `handle_data_ready` emits and bumps `collected_count`;
worker errors only produce a status message. -/
def workerStep (cfg : RunCfg) (st : LoopState) : WOutcome → LoopState
  | .failed => st
  | .extracted r =>
    if cfg.skipMissingSocial ∧ r.website = some "N/A" ∧ r.instagram = some "N/A" then
      { st with skippedCount := st.skippedCount + 1 }
    else
      { st with emitted := st.emitted ++ [applyRunFields cfg r],
                collected := st.collected + 1 }

def runBatch (cfg : RunCfg) (st : LoopState) (ws : List WOutcome) : LoopState :=
  ws.foldl (workerStep cfg) st

inductive IterEvent
  | connLost (stopDuringWait : Bool)
  | batchRaise
  | batch (found : Nat) (loadMore : Option Nat)
deriving DecidableEq

/-- Lines 603-616: how many results are available this iteration.
`none` models the two `break`s (`load_more_results` failed, or re-querying
still yields no new results). -/
def dispatchAvail (st : LoopState) (found : Nat) (loadMore : Option Nat) : Option Nat :=
  if st.processed < found then some found
  else match loadMore with
    | none => none
    | some found2 => if st.processed < found2 then some found2 else none

/-- Lines 618-649: `batch_size = min(4, len(results) - processed_count,
max_to_process - processed_count)`; dispatch the batch, wait for it, then
advance `processed_count`. -/
def batchDispatch (cfg : RunCfg) (cands : Nat → WOutcome) (st : LoopState)
    (avail : Nat) : LoopState × Bool :=
  if min 4 (min (avail - st.processed) (maxToProcess cfg - st.processed)) = 0 then
    (st, false)
  else
    ({ runBatch cfg st ((List.range
          (min 4 (min (avail - st.processed) (maxToProcess cfg - st.processed)))).map
          (fun i => cands (st.processed + i))) with
       processed := st.processed +
         min 4 (min (avail - st.processed) (maxToProcess cfg - st.processed)) }, true)

def batchStep (cfg : RunCfg) (cands : Nat → WOutcome) (st : LoopState)
    (found : Nat) (loadMore : Option Nat) : LoopState × Bool :=
  match dispatchAvail st found loadMore with
  | none => (st, false)
  | some avail => batchDispatch cfg cands st avail

/-- One loop iteration.  Returns the new state and whether the loop
continues (`false` models a `break`). -/
def stepIter (cfg : RunCfg) (cands : Nat → WOutcome) (st : LoopState) :
    IterEvent → LoopState × Bool
  | .connLost stop =>
    if stop then ({ st with running := false }, false) else (st, true)
  | .batchRaise => ({ st with consecutiveErrors := st.consecutiveErrors + 1 }, true)
  | .batch found loadMore => batchStep cfg cands st found loadMore

/-- The `while` condition of line 581. -/
def loopCond (cfg : RunCfg) (st : LoopState) : Prop :=
  st.collected < cfg.numEntries ∧ st.processed < maxToProcess cfg ∧
    st.running = true ∧ st.consecutiveErrors < 3

instance (cfg : RunCfg) (st : LoopState) : Decidable (loopCond cfg st) := by
  unfold loopCond
  infer_instance

/-- The collection loop, driven by the event script. -/
def runLoop (cfg : RunCfg) (cands : Nat → WOutcome) :
    List IterEvent → LoopState → LoopState
  | [], st => st
  | e :: es, st =>
    if loopCond cfg st then
      match stepIter cfg cands st e with
      | (st', true) => runLoop cfg cands es st'
      | (st', false) => st'
    else st

/-! ### Loop invariants -/

theorem workerStep_preserves (cfg : RunCfg) (st : LoopState) (w : WOutcome) :
    (workerStep cfg st w).processed = st.processed
    ∧ (workerStep cfg st w).running = st.running
    ∧ (workerStep cfg st w).consecutiveErrors = st.consecutiveErrors := by
  cases w with
  | failed => exact ⟨rfl, rfl, rfl⟩
  | extracted r =>
    by_cases h : cfg.skipMissingSocial = true ∧ r.website = some "N/A" ∧ r.instagram = some "N/A"
    · rw [workerStep, if_pos h]
      exact ⟨rfl, rfl, rfl⟩
    · rw [workerStep, if_neg h]
      exact ⟨rfl, rfl, rfl⟩

theorem workerStep_counts (cfg : RunCfg) (st : LoopState) (w : WOutcome) :
    (workerStep cfg st w).collected ≤ st.collected + 1
    ∧ (workerStep cfg st w).emitted.length + st.collected
      = (workerStep cfg st w).collected + st.emitted.length
    ∧ st.emitted <+: (workerStep cfg st w).emitted
    ∧ st.collected ≤ (workerStep cfg st w).collected := by
  cases w with
  | failed =>
    refine ⟨Nat.le_succ _, ?_, List.prefix_refl _, Nat.le_refl _⟩
    show st.emitted.length + st.collected = st.collected + st.emitted.length
    omega
  | extracted r =>
    by_cases h : cfg.skipMissingSocial = true ∧ r.website = some "N/A" ∧ r.instagram = some "N/A"
    · rw [workerStep, if_pos h]
      refine ⟨Nat.le_succ _, ?_, List.prefix_refl _, Nat.le_refl _⟩
      show st.emitted.length + st.collected = st.collected + st.emitted.length
      omega
    · rw [workerStep, if_neg h]
      refine ⟨Nat.le_refl _, ?_, List.prefix_append _ _, Nat.le_succ _⟩
      show (st.emitted ++ [applyRunFields cfg r]).length + st.collected
        = st.collected + 1 + st.emitted.length
      simp only [List.length_append, List.length_singleton]
      omega

theorem runBatch_preserves (cfg : RunCfg) (ws : List WOutcome) : ∀ (st : LoopState),
    (runBatch cfg st ws).processed = st.processed
    ∧ (runBatch cfg st ws).running = st.running
    ∧ (runBatch cfg st ws).consecutiveErrors = st.consecutiveErrors := by
  induction ws with
  | nil => intro st; exact ⟨rfl, rfl, rfl⟩
  | cons w ws ih =>
    intro st
    have h1 := workerStep_preserves cfg st w
    have h2 := ih (workerStep cfg st w)
    exact ⟨h2.1.trans h1.1, h2.2.1.trans h1.2.1, h2.2.2.trans h1.2.2⟩

theorem runBatch_counts (cfg : RunCfg) (ws : List WOutcome) : ∀ (st : LoopState),
    (runBatch cfg st ws).collected ≤ st.collected + ws.length
    ∧ (runBatch cfg st ws).emitted.length + st.collected
      = (runBatch cfg st ws).collected + st.emitted.length
    ∧ st.emitted <+: (runBatch cfg st ws).emitted
    ∧ st.collected ≤ (runBatch cfg st ws).collected := by
  induction ws with
  | nil =>
    intro st
    refine ⟨Nat.le_add_right _ _, ?_, List.prefix_refl _, Nat.le_refl _⟩
    show st.emitted.length + st.collected = st.collected + st.emitted.length
    omega
  | cons w ws ih =>
    intro st
    have hfold : runBatch cfg st (w :: ws) = runBatch cfg (workerStep cfg st w) ws := rfl
    have h1 := workerStep_counts cfg st w
    have h2 := ih (workerStep cfg st w)
    rw [hfold]
    refine ⟨?_, ?_, h1.2.2.1.trans h2.2.2.1, h1.2.2.2.trans h2.2.2.2⟩
    · have ha := h2.1
      have hb := h1.1
      simp only [List.length_cons]
      omega
    · have ha := h2.2.1
      have hb := h1.2.1
      omega

theorem runLoop_of_not_cond (cfg : RunCfg) (cands : Nat → WOutcome) (st : LoopState)
    (h : ¬ loopCond cfg st) : ∀ (es : List IterEvent), runLoop cfg cands es st = st := by
  intro es
  cases es with
  | nil => rfl
  | cons e es => rw [runLoop, if_neg h]

/-! ### The asynchronous-read loop for C1

`handle_data_ready` runs as a queued slot on the GUI thread while the
collector thread proceeds: the `while`-condition's read of
`collected_count` at line 581 may miss any number of the increments
already queued.  `lag` is that number at the moment of one read, so the
condition sees `st.collected - lag` (any value between 0 and the true
count).  `processed_count` and `consecutive_errors` are written and read
only by the collector thread itself and are read accurately. -/

def loopCondRead (cfg : RunCfg) (st : LoopState) (lag : Nat) : Prop :=
  st.collected - lag < cfg.numEntries ∧ st.processed < maxToProcess cfg ∧
    st.running = true ∧ st.consecutiveErrors < 3

instance (cfg : RunCfg) (st : LoopState) (lag : Nat) : Decidable (loopCondRead cfg st lag) := by
  unfold loopCondRead
  infer_instance

/-- The collection loop with queued delivery of `data_ready`: each
iteration event carries, besides the environment event, the delivery lag
seen by that iteration's condition read.  Lag 0 everywhere is the
synchronous schedule of `runLoop`. -/
def runLoopAsync (cfg : RunCfg) (cands : Nat → WOutcome) :
    List (Nat × IterEvent) → LoopState → LoopState
  | [], st => st
  | (lag, e) :: es, st =>
    if loopCondRead cfg st lag then
      match stepIter cfg cands st e with
      | (st', true) => runLoopAsync cfg cands es st'
      | (st', false) => st'
    else st

/-- The counter invariant behind C1: the emitted records are counted by
`collected`, every accepted emission comes from a dispatched worker, and
dispatch is capped by the attempt budget.  The invariant holds of every
step unconditionally, so it is independent of what the loop condition
reads. -/
def InvC1 (cfg : RunCfg) (st : LoopState) : Prop :=
  st.emitted.length = st.collected
  ∧ st.collected ≤ st.processed
  ∧ st.processed ≤ maxToProcess cfg

theorem stepIter_invC1 (cfg : RunCfg) (cands : Nat → WOutcome) (st : LoopState)
    (e : IterEvent) (h : InvC1 cfg st) :
    InvC1 cfg (stepIter cfg cands st e).1 := by
  obtain ⟨hlen, hcol, hproc⟩ := h
  cases e with
  | connLost b =>
    cases b
    · exact ⟨hlen, hcol, hproc⟩
    · exact ⟨hlen, hcol, hproc⟩
  | batchRaise => exact ⟨hlen, hcol, hproc⟩
  | batch found lm =>
    show InvC1 cfg (batchStep cfg cands st found lm).1
    unfold batchStep
    cases hA : dispatchAvail st found lm with
    | none => exact ⟨hlen, hcol, hproc⟩
    | some avail =>
      show InvC1 cfg (batchDispatch cfg cands st avail).1
      unfold batchDispatch
      by_cases hbs : min 4 (min (avail - st.processed) (maxToProcess cfg - st.processed)) = 0
      · rw [if_pos hbs]
        exact ⟨hlen, hcol, hproc⟩
      · rw [if_neg hbs]
        set bs := min 4 (min (avail - st.processed) (maxToProcess cfg - st.processed)) with hbsdef
        set ws := (List.range bs).map (fun i => cands (st.processed + i)) with hws
        have hwslen : ws.length = bs := by rw [hws, List.length_map, List.length_range]
        have hcnt := runBatch_counts cfg ws st
        have hbsmax : bs ≤ maxToProcess cfg - st.processed :=
          (Nat.min_le_right _ _).trans (Nat.min_le_right _ _)
        refine ⟨?_, ?_, ?_⟩
        · show (runBatch cfg st ws).emitted.length = (runBatch cfg st ws).collected
          omega
        · show (runBatch cfg st ws).collected ≤ st.processed + bs
          have := hcnt.1
          omega
        · show st.processed + bs ≤ maxToProcess cfg
          omega

theorem runLoopAsync_invC1 (cfg : RunCfg) (cands : Nat → WOutcome) :
    ∀ (events : List (Nat × IterEvent)) (st : LoopState), InvC1 cfg st →
      InvC1 cfg (runLoopAsync cfg cands events st) := by
  intro events
  induction events with
  | nil => intro st h; exact h
  | cons le es ih =>
    intro st h
    obtain ⟨lag, e⟩ := le
    rw [runLoopAsync]
    by_cases hcond : loopCondRead cfg st lag
    · rw [if_pos hcond]
      have hstep := stepIter_invC1 cfg cands st e h
      rcases hst : stepIter cfg cands st e with ⟨st', b⟩
      rw [hst] at hstep
      cases b
      · exact hstep
      · exact ih st' hstep
    · rw [if_neg hcond]
      exact h

/-- C1 (amended): under every delivery schedule of the queued
`handle_data_ready` slot — the condition read at line 581 may lag behind
the true accepted count by any amount — the number of candidates counted
as processed never exceeds `maxAttempts = num_entries * 5`, and every
accepted emission comes from a dispatched worker, so the number of
records emitted as accepted is bounded by `processedCount`, hence by
`maxAttempts`.  No bound of the form `targetCount + c` holds: the target
check only happens between batches and may read a stale count. -/
theorem C1_attempt_budget_bounds_accepted (cfg : RunCfg) (cands : Nat → WOutcome)
    (events : List (Nat × IterEvent)) :
    (runLoopAsync cfg cands events initState).processed ≤ maxToProcess cfg
    ∧ (runLoopAsync cfg cands events initState).emitted.length
        ≤ (runLoopAsync cfg cands events initState).processed
    ∧ (runLoopAsync cfg cands events initState).emitted.length ≤ maxToProcess cfg := by
  have h := runLoopAsync_invC1 cfg cands events initState
    ⟨rfl, Nat.le_refl _, Nat.zero_le _⟩
  refine ⟨h.2.2, ?_, ?_⟩
  · rw [h.1]
    exact h.2.1
  · rw [h.1]
    exact h.2.1.trans h.2.2

/-- A record as a worker extracts it: website present, no Instagram. -/
def recDup1 : PyDict :=
  ⟨some "Mama Shop", some "08012345678", some "info@mamashop.com",
   some "https://mamashop.com", some "N/A", some "12 Allen Ave",
   none, none, none, none, none, none⟩

def cfgT1 : RunCfg := ⟨1, false, "Nigeria", "Lagos", "Ikeja"⟩

def candsAll1 : Nat → WOutcome := fun _ => .extracted recDup1

/-- C1 (counterexample): with `num_entries = 1` and four extractable
results, one batch dispatches 4 workers and all 4 records are emitted as
accepted — more than `targetCount`, refuting the claim even on the
lag-free schedule; and when the second iteration's condition read misses
the 4 queued increments (lag 4), a further batch of
`min(4, 5-4, 5-4) = 1` is dispatched and 5 records are emitted, so not
even `targetCount + 3` bounds the accepted count. -/
theorem C1_counterexample_accepted_exceeds_target :
    cfgT1.numEntries = 1
    ∧ (runLoopAsync cfgT1 candsAll1 [(0, .batch 4 none)] initState).emitted.length = 4
    ∧ (runLoopAsync cfgT1 candsAll1 [(0, .batch 4 none), (4, .batch 5 none)]
        initState).emitted.length = 5 :=
  ⟨rfl, by decide, by decide⟩

/-! ### C4: batch-failure accounting -/

theorem stepIter_batch_keeps_errors (cfg : RunCfg) (cands : Nat → WOutcome)
    (st : LoopState) (found : Nat) (lm : Option Nat) :
    (stepIter cfg cands st (.batch found lm)).1.consecutiveErrors = st.consecutiveErrors := by
  show (batchStep cfg cands st found lm).1.consecutiveErrors = st.consecutiveErrors
  unfold batchStep
  cases hA : dispatchAvail st found lm with
  | none => rfl
  | some avail =>
    show (batchDispatch cfg cands st avail).1.consecutiveErrors = st.consecutiveErrors
    unfold batchDispatch
    by_cases hbs : min 4 (min (avail - st.processed) (maxToProcess cfg - st.processed)) = 0
    · rw [if_pos hbs]
    · rw [if_neg hbs]
      exact (runBatch_preserves cfg _ st).2.2

/-- C4 (amended): a failed batch dispatch leaves `processed_count` and the
emitted records unchanged and increments the error counter by one; a
successful batch does NOT reset the counter (it is initialised once at
line 579 and only ever incremented at line 663); the loop refuses to
continue once the counter reaches 3 — so three batch failures in TOTAL,
consecutive or not, abort the run. -/
theorem C4_three_total_batch_failures_abort (cfg : RunCfg) (cands : Nat → WOutcome) :
    (∀ st : LoopState,
      (stepIter cfg cands st .batchRaise).1.processed = st.processed
      ∧ (stepIter cfg cands st .batchRaise).1.emitted = st.emitted
      ∧ (stepIter cfg cands st .batchRaise).1.consecutiveErrors = st.consecutiveErrors + 1)
    ∧ (∀ (st : LoopState) (found : Nat) (lm : Option Nat),
      (stepIter cfg cands st (.batch found lm)).1.consecutiveErrors = st.consecutiveErrors)
    ∧ (∀ (st : LoopState) (es : List IterEvent), 3 ≤ st.consecutiveErrors →
      runLoop cfg cands es st = st) := by
  refine ⟨fun st => ⟨rfl, rfl, rfl⟩, stepIter_batch_keeps_errors cfg cands, ?_⟩
  intro st es hge
  exact runLoop_of_not_cond cfg cands st
    (fun hc => absurd hc.2.2.2 (Nat.not_lt.mpr hge)) es

def c4state : LoopState := ⟨0, 0, 0, 3, true, []⟩

/-- Witness for C4: once three batch failures have been recorded, no
further event is processed, even with results available. -/
theorem C4_three_total_batch_failures_abort_witness :
    runLoop cfgT1 candsAll1 [.batch 4 none] c4state = c4state :=
  (C4_three_total_batch_failures_abort cfgT1 candsAll1).2.2 c4state
    [.batch 4 none] (by decide)

def cfgT10 : RunCfg := ⟨10, false, "Nigeria", "Lagos", "Ikeja"⟩

/-- C4 (counterexample): a run whose batch dispatches fail, succeed, fail,
succeed, fail — never three CONSECUTIVE failures, with a successful batch
between any two — still stops with the error counter at 3, while the
target (collected 8 < 10), the attempt budget (processed 8 < 50) and the
cancellation flag would all allow it to continue: the counter is never
reset by a success, refuting the claim's "when and only when three
consecutive dispatches fail". -/
theorem C4_counterexample_success_does_not_reset :
    (runLoop cfgT10 candsAll1
      [.batchRaise, .batch 100 none, .batchRaise, .batch 100 none, .batchRaise, .batch 100 none]
      initState).consecutiveErrors = 3
    ∧ (runLoop cfgT10 candsAll1
      [.batchRaise, .batch 100 none, .batchRaise, .batch 100 none, .batchRaise, .batch 100 none]
      initState).collected = 8
    ∧ (runLoop cfgT10 candsAll1
      [.batchRaise, .batch 100 none, .batchRaise, .batch 100 none, .batchRaise, .batch 100 none]
      initState).processed = 8
    ∧ (runLoop cfgT10 candsAll1
      [.batchRaise, .batch 100 none, .batchRaise, .batch 100 none, .batchRaise, .batch 100 none]
      initState).running = true := by
  refine ⟨by decide, by decide, by decide, by decide⟩

/-! ### C7: connectivity pause -/

theorem stepIter_mono (cfg : RunCfg) (cands : Nat → WOutcome) (st : LoopState)
    (e : IterEvent) :
    st.emitted <+: (stepIter cfg cands st e).1.emitted
    ∧ st.collected ≤ (stepIter cfg cands st e).1.collected := by
  cases e with
  | connLost b => cases b <;> exact ⟨List.prefix_refl _, Nat.le_refl _⟩
  | batchRaise => exact ⟨List.prefix_refl _, Nat.le_refl _⟩
  | batch found lm =>
    show st.emitted <+: (batchStep cfg cands st found lm).1.emitted
      ∧ st.collected ≤ (batchStep cfg cands st found lm).1.collected
    unfold batchStep
    cases hA : dispatchAvail st found lm with
    | none => exact ⟨List.prefix_refl _, Nat.le_refl _⟩
    | some avail =>
      show st.emitted <+: (batchDispatch cfg cands st avail).1.emitted
        ∧ st.collected ≤ (batchDispatch cfg cands st avail).1.collected
      unfold batchDispatch
      by_cases hbs : min 4 (min (avail - st.processed) (maxToProcess cfg - st.processed)) = 0
      · rw [if_pos hbs]
        exact ⟨List.prefix_refl _, Nat.le_refl _⟩
      · rw [if_neg hbs]
        have hcnt := runBatch_counts cfg ((List.range
          (min 4 (min (avail - st.processed) (maxToProcess cfg - st.processed)))).map
          (fun i => cands (st.processed + i))) st
        exact ⟨hcnt.2.2.1, hcnt.2.2.2⟩

theorem runLoop_mono (cfg : RunCfg) (cands : Nat → WOutcome) :
    ∀ (es : List IterEvent) (st : LoopState),
      st.emitted <+: (runLoop cfg cands es st).emitted
      ∧ st.collected ≤ (runLoop cfg cands es st).collected := by
  intro es
  induction es with
  | nil => intro st; exact ⟨List.prefix_refl _, Nat.le_refl _⟩
  | cons e es ih =>
    intro st
    rw [runLoop]
    by_cases hcond : loopCond cfg st
    · rw [if_pos hcond]
      have hm := stepIter_mono cfg cands st e
      rcases hst : stepIter cfg cands st e with ⟨st', b⟩
      rw [hst] at hm
      cases b
      · exact hm
      · have h2 := ih st'
        exact ⟨hm.1.trans h2.1, hm.2.trans h2.2⟩
    · rw [if_neg hcond]
      exact ⟨List.prefix_refl _, Nat.le_refl _⟩

/-- C7: while `internet_connected` is false at the top of an iteration no
batch is dispatched (processed, collected and the emitted records are all
unchanged by the pause); once connectivity returns the loop carries on
exactly as if the pause had not happened; and no continuation of the run
ever decreases `collected_count` or discards already-emitted records
(the emitted list only ever grows by appending). -/
theorem C7_connectivity_pause_preserves_progress (cfg : RunCfg) (cands : Nat → WOutcome) :
    (∀ (st : LoopState) (b : Bool),
      (stepIter cfg cands st (.connLost b)).1.processed = st.processed
      ∧ (stepIter cfg cands st (.connLost b)).1.collected = st.collected
      ∧ (stepIter cfg cands st (.connLost b)).1.emitted = st.emitted)
    ∧ (∀ (es : List IterEvent) (st : LoopState),
      runLoop cfg cands (.connLost false :: es) st = runLoop cfg cands es st)
    ∧ (∀ (es : List IterEvent) (st : LoopState),
      st.emitted <+: (runLoop cfg cands es st).emitted
      ∧ st.collected ≤ (runLoop cfg cands es st).collected) := by
  refine ⟨?_, ?_, runLoop_mono cfg cands⟩
  · intro st b
    cases b <;> exact ⟨rfl, rfl, rfl⟩
  · intro es st
    by_cases hc : loopCond cfg st
    · rw [runLoop, if_pos hc]
      rfl
    · rw [runLoop, if_neg hc, runLoop_of_not_cond cfg cands st hc es]

/-! ### `collect_via_api` (src/core/data_collection.py 720-788)

Network responses (the Places search results, per-place details, the
email harvested from the website and the downloaded image path) are
inputs of the model. -/

structure ApiDetails where
  name : Option String
  formatted_phone_number : Option String
  website : Option String
  weekdayTextJson : String
  photoRef : Option String
deriving DecidableEq

structure ApiPlace where
  place_id : Option String
  formatted_address : Option String
  details : Option ApiDetails
  emailResult : String
  imageResult : String
deriving DecidableEq

/-- The data dict built from one API place (lines 745-771). -/
def apiData (cfg : RunCfg) (pl : ApiPlace) (det : ApiDetails) : PyDict where
  name := some (det.name.getD "N/A")
  phone := some (det.formatted_phone_number.getD "N/A")
  email := some (if det.website.getD "N/A" ≠ "N/A" then pl.emailResult else "N/A")
  website := some (det.website.getD "N/A")
  instagram := some "N/A"
  address := some (pl.formatted_address.getD "N/A")
  country := some (.str cfg.country)
  state := some (.str cfg.state)
  location := some (.str cfg.location)
  hours := some (.str det.weekdayTextJson)
  products_services := some (.str "N/A")
  image_path := some (.str (match det.photoRef with
    | some _ => pl.imageResult
    | none => "N/A"))

/-- The API collection loop (lines 731-787); `is_running` is modelled as
true throughout (no cancellation request). -/
def collect_via_api (cfg : RunCfg) :
    List ApiPlace → Nat → Nat → List PyDict → List PyDict × Nat × Nat
  | [], c, s, acc => (acc, c, s)
  | pl :: rest, c, s, acc =>
    if cfg.numEntries ≤ c then (acc, c, s)
    else
      match pl.place_id with
      | none => collect_via_api cfg rest c s acc
      | some _ =>
        match pl.details with
        | none => collect_via_api cfg rest c s acc
        | some det =>
          if cfg.skipMissingSocial ∧ (apiData cfg pl det).website = some "N/A" ∧
              (apiData cfg pl det).instagram = some "N/A" then
            collect_via_api cfg rest c (s + 1) acc
          else collect_via_api cfg rest (c + 1) s (acc ++ [apiData cfg pl det])

/-! ### C3: the completeness policy -/

theorem workerStep_completeness (cfg : RunCfg) (st : LoopState) (w : WOutcome)
    (hskip : cfg.skipMissingSocial = true)
    (h : ∀ r ∈ st.emitted, r.website ≠ some "N/A" ∨ r.instagram ≠ some "N/A") :
    ∀ r ∈ (workerStep cfg st w).emitted,
      r.website ≠ some "N/A" ∨ r.instagram ≠ some "N/A" := by
  cases w with
  | failed => exact h
  | extracted r0 =>
    by_cases hc : cfg.skipMissingSocial = true ∧ r0.website = some "N/A" ∧
        r0.instagram = some "N/A"
    · rw [workerStep, if_pos hc]
      exact h
    · rw [workerStep, if_neg hc]
      intro r hr
      rcases List.mem_append.mp hr with hr | hr
      · exact h r hr
      · rw [List.mem_singleton] at hr
        subst hr

        have hnot : ¬ (r0.website = some "N/A" ∧ r0.instagram = some "N/A") :=
          fun hcc => hc ⟨hskip, hcc⟩
        have hweb : (applyRunFields cfg r0).website = r0.website := rfl
        have hin : (applyRunFields cfg r0).instagram = r0.instagram := rfl
        rw [hweb, hin]
        rcases not_and_or.mp hnot with h1 | h1
        · exact Or.inl h1
        · exact Or.inr h1

theorem runBatch_completeness (cfg : RunCfg) (ws : List WOutcome)
    (hskip : cfg.skipMissingSocial = true) : ∀ (st : LoopState),
    (∀ r ∈ st.emitted, r.website ≠ some "N/A" ∨ r.instagram ≠ some "N/A") →
    ∀ r ∈ (runBatch cfg st ws).emitted,
      r.website ≠ some "N/A" ∨ r.instagram ≠ some "N/A" := by
  induction ws with
  | nil => intro st h; exact h
  | cons w ws ih =>
    intro st h
    exact ih (workerStep cfg st w) (workerStep_completeness cfg st w hskip h)

theorem stepIter_completeness (cfg : RunCfg) (cands : Nat → WOutcome) (st : LoopState)
    (e : IterEvent) (hskip : cfg.skipMissingSocial = true)
    (h : ∀ r ∈ st.emitted, r.website ≠ some "N/A" ∨ r.instagram ≠ some "N/A") :
    ∀ r ∈ (stepIter cfg cands st e).1.emitted,
      r.website ≠ some "N/A" ∨ r.instagram ≠ some "N/A" := by
  cases e with
  | connLost b => cases b <;> exact h
  | batchRaise => exact h
  | batch found lm =>
    show ∀ r ∈ (batchStep cfg cands st found lm).1.emitted, _
    unfold batchStep
    cases hA : dispatchAvail st found lm with
    | none => exact h
    | some avail =>
      show ∀ r ∈ (batchDispatch cfg cands st avail).1.emitted, _
      unfold batchDispatch
      by_cases hbs : min 4 (min (avail - st.processed) (maxToProcess cfg - st.processed)) = 0
      · rw [if_pos hbs]
        exact h
      · rw [if_neg hbs]
        exact runBatch_completeness cfg _ hskip st h

theorem runLoop_completeness (cfg : RunCfg) (cands : Nat → WOutcome)
    (hskip : cfg.skipMissingSocial = true) :
    ∀ (es : List IterEvent) (st : LoopState),
    (∀ r ∈ st.emitted, r.website ≠ some "N/A" ∨ r.instagram ≠ some "N/A") →
    ∀ r ∈ (runLoop cfg cands es st).emitted,
      r.website ≠ some "N/A" ∨ r.instagram ≠ some "N/A" := by
  intro es
  induction es with
  | nil => intro st h; exact h
  | cons e es ih =>
    intro st h
    rw [runLoop]
    by_cases hcond : loopCond cfg st
    · rw [if_pos hcond]
      have hstep := stepIter_completeness cfg cands st e hskip h
      rcases hst : stepIter cfg cands st e with ⟨st', b⟩
      rw [hst] at hstep
      cases b
      · exact hstep
      · exact ih st' hstep
    · rw [if_neg hcond]
      exact h

theorem api_completeness (cfg : RunCfg) (hskip : cfg.skipMissingSocial = true) :
    ∀ (places : List ApiPlace) (c s : Nat) (acc : List PyDict),
    (∀ r ∈ acc, r.website ≠ some "N/A" ∨ r.instagram ≠ some "N/A") →
    ∀ r ∈ (collect_via_api cfg places c s acc).1,
      r.website ≠ some "N/A" ∨ r.instagram ≠ some "N/A" := by
  intro places
  induction places with
  | nil => intro c s acc h; exact h
  | cons pl rest ih =>
    intro c s acc h
    rw [collect_via_api]
    by_cases hfull : cfg.numEntries ≤ c
    · rw [if_pos hfull]
      exact h
    · rw [if_neg hfull]
      cases pl.place_id with
      | none => exact ih c s acc h
      | some pid =>
        cases pl.details with
        | none => exact ih c s acc h
        | some det =>
          show ∀ r ∈ (if cfg.skipMissingSocial = true ∧
              (apiData cfg pl det).website = some "N/A" ∧
              (apiData cfg pl det).instagram = some "N/A" then
                collect_via_api cfg rest c (s + 1) acc
              else collect_via_api cfg rest (c + 1) s (acc ++ [apiData cfg pl det])).1,
            r.website ≠ some "N/A" ∨ r.instagram ≠ some "N/A"
          by_cases hc : cfg.skipMissingSocial = true ∧
              (apiData cfg pl det).website = some "N/A" ∧
              (apiData cfg pl det).instagram = some "N/A"
          · rw [if_pos hc]
            exact ih c (s + 1) acc h
          · rw [if_neg hc]
            refine ih (c + 1) s (acc ++ [apiData cfg pl det]) ?_
            intro r hr
            rcases List.mem_append.mp hr with hr | hr
            · exact h r hr
            · rw [List.mem_singleton] at hr
              subst hr
              have hnot : ¬ ((apiData cfg pl det).website = some "N/A" ∧
                  (apiData cfg pl det).instagram = some "N/A") :=
                fun hcc => hc ⟨hskip, hcc⟩
              rcases not_and_or.mp hnot with h1 | h1
              · exact Or.inl h1
              · exact Or.inr h1

/-- C3: when `skip_missing_social` is set, every record emitted as
accepted — by the scraping worker path (`DataProcessor.run` line 88) or by
the structured-API path (`collect_via_api` line 774) — has website not
equal to `"N/A"` or instagram not equal to `"N/A"`. -/
theorem C3_completeness_policy (cfg : RunCfg) (hskip : cfg.skipMissingSocial = true) :
    (∀ (cands : Nat → WOutcome) (events : List IterEvent),
      ∀ r ∈ (runLoop cfg cands events initState).emitted,
        r.website ≠ some "N/A" ∨ r.instagram ≠ some "N/A")
    ∧ (∀ (places : List ApiPlace),
      ∀ r ∈ (collect_via_api cfg places 0 0 []).1,
        r.website ≠ some "N/A" ∨ r.instagram ≠ some "N/A") :=
  ⟨fun cands events =>
      runLoop_completeness cfg cands hskip events initState (fun r hr => absurd hr (by simp [initState])),
   fun places =>
      api_completeness cfg hskip places 0 0 [] (fun r hr => absurd hr (by simp))⟩

def cfgSkip : RunCfg := ⟨2, true, "Nigeria", "Lagos", "Ikeja"⟩

def apiDet1 : ApiDetails :=
  ⟨some "Mama Shop", some "+2348012345678", some "https://mamashop.com", "[]", none⟩

def apiPlace1 : ApiPlace :=
  ⟨some "pid1", some "12 Allen Ave", some apiDet1, "info@mamashop.com", "N/A"⟩

/-- Witness for C3 at concrete runs of both paths. -/
theorem C3_completeness_policy_witness :
    ((applyRunFields cfgSkip recDup1).website ≠ some "N/A"
      ∨ (applyRunFields cfgSkip recDup1).instagram ≠ some "N/A")
    ∧ ((apiData cfgSkip apiPlace1 apiDet1).website ≠ some "N/A"
      ∨ (apiData cfgSkip apiPlace1 apiDet1).instagram ≠ some "N/A") :=
  ⟨(C3_completeness_policy cfgSkip rfl).1 candsAll1 [.batch 1 none]
      (applyRunFields cfgSkip recDup1) (by decide),
   (C3_completeness_policy cfgSkip rfl).2 [apiPlace1]
      (apiData cfgSkip apiPlace1 apiDet1) (by decide)⟩

/-! ### C2: deduplication of the output stream

`DataCollectorThread.handle_data_ready` (lines 690-704) performs no
dedup check: every `data_ready` record is emitted.  Deduplication happens
in the consumer, `MainWindow.add_real_time_data`
(src/ui/main_window.py 686-716), when records are appended to
`collected_data`. -/

/-- A second worker record whose name differs from `recDup1` only in case
and edge whitespace, and shares its address: a different record with the
same normalization key. -/
def recDup2 : PyDict :=
  ⟨some " mama shop ", some "070011", some "other@mamashop.com",
   some "https://other.example", some "N/A", some "12 Allen Ave",
   none, none, none, none, none, none⟩

def cfgT5 : RunCfg := ⟨5, false, "Nigeria", "Lagos", "Ikeja"⟩

def candsDup : Nat → WOutcome :=
  fun i => if i = 0 then .extracted recDup1 else .extracted recDup2

/-- C2 (counterexample): one run emits two DISTINCT records whose
normalization keys (lowercased, stripped name and address) are equal —
`handle_data_ready` deduplicates nothing, so the thread's output stream
can contain records with the same dedup key. -/
theorem C2_counterexample_duplicate_emission :
    (runLoop cfgT5 candsDup [.batch 2 none] initState).emitted.length = 2
    ∧ (runLoop cfgT5 candsDup [.batch 2 none] initState).emitted[0]?
      ≠ (runLoop cfgT5 candsDup [.batch 2 none] initState).emitted[1]?
    ∧ ((runLoop cfgT5 candsDup [.batch 2 none] initState).emitted[0]?).map dedupKey
      = ((runLoop cfgT5 candsDup [.batch 2 none] initState).emitted[1]?).map dedupKey := by
  refine ⟨by decide, by decide, by decide⟩

/-- The GUI-side state of `MainWindow`: `unique_entries` and
`collected_data`. -/
structure GuiState where
  uniqueEntries : List (String × String)
  collectedData : List PyDict

/-- `MainWindow.add_real_time_data` (lines 686-716): clean the incoming
record, compute its key, and append it only when the key is new. -/
def add_real_time_data (st : GuiState) (r : PyDict) : GuiState :=
  if dedupKey (clean_data_entry r) ∈ st.uniqueEntries then st
  else { uniqueEntries := dedupKey (clean_data_entry r) :: st.uniqueEntries,
         collectedData := st.collectedData ++ [clean_data_entry r] }

/-- The stream of records a run delivers to the GUI, folded through
`add_real_time_data`. -/
def guiIngest (rs : List PyDict) : GuiState := rs.foldl add_real_time_data ⟨[], []⟩

theorem add_real_time_data_invariant (st : GuiState) (r : PyDict)
    (h : st.collectedData.Pairwise (fun a b => dedupKey a ≠ dedupKey b)
      ∧ ∀ c ∈ st.collectedData, dedupKey c ∈ st.uniqueEntries) :
    (add_real_time_data st r).collectedData.Pairwise (fun a b => dedupKey a ≠ dedupKey b)
    ∧ ∀ c ∈ (add_real_time_data st r).collectedData,
        dedupKey c ∈ (add_real_time_data st r).uniqueEntries := by
  by_cases hmem : dedupKey (clean_data_entry r) ∈ st.uniqueEntries
  · rw [add_real_time_data, if_pos hmem]
    exact h
  · rw [add_real_time_data, if_neg hmem]
    constructor
    · rw [List.pairwise_append]
      refine ⟨h.1, List.pairwise_singleton _ _, ?_⟩
      intro a ha b hb
      rw [List.mem_singleton] at hb
      subst hb
      intro he
      exact hmem (he ▸ h.2 a ha)
    · intro c hc
      rcases List.mem_append.mp hc with hc | hc
      · exact List.mem_cons_of_mem _ (h.2 c hc)
      · rw [List.mem_singleton] at hc
        subst hc
        exact List.mem_cons_self _ _

theorem guiIngest_invariant (rs : List PyDict) : ∀ (st : GuiState),
    (st.collectedData.Pairwise (fun a b => dedupKey a ≠ dedupKey b)
      ∧ ∀ c ∈ st.collectedData, dedupKey c ∈ st.uniqueEntries) →
    ((rs.foldl add_real_time_data st).collectedData.Pairwise
        (fun a b => dedupKey a ≠ dedupKey b)
      ∧ ∀ c ∈ (rs.foldl add_real_time_data st).collectedData,
          dedupKey c ∈ (rs.foldl add_real_time_data st).uniqueEntries) := by
  induction rs with
  | nil => intro st h; exact h
  | cons r rs ih =>
    intro st h
    exact ih (add_real_time_data st r) (add_real_time_data_invariant st r h)

/-- C2 (amended): the records appended to the GUI's results collection by
`add_real_time_data` during a run have pairwise distinct normalization
keys — deduplication happens at that stage, not in the collector thread's
own emission. -/
theorem C2_gui_table_deduplicated (rs : List PyDict) :
    (guiIngest rs).collectedData.Pairwise (fun a b => dedupKey a ≠ dedupKey b) :=
  (guiIngest_invariant rs ⟨[], []⟩ ⟨List.Pairwise.nil, by simp⟩).1

end ADC
